import Mathlib

/-!
Shallow embedding of `src/TestProject/main.py`: an employee directory backed by
a PostgreSQL table `employees` with a UNIQUE constraint on
(surname, given_name, patronymic, date_of_birth) and `INSERT ... ON CONFLICT DO
NOTHING` writes.  The store is modelled as the list of committed rows in
insertion order; a transaction in flight is modelled by `PGState` (committed
rows plus the uncommitted working view).  Randomness (`random.choice`,
`random.randint`) is modelled by an oracle stream of natural numbers, so that
properties quantified over the oracle hold for every run.
-/

set_option maxHeartbeats 1000000

/-- Calendar date, modelling Python `datetime.date` (year, month, day). -/
structure Date where
  year : Nat
  month : Nat
  day : Nat
deriving DecidableEq

/-- Person record, modelling the `Employee` dataclass of `main.py`:
surname, given_name, patronymic, date_of_birth, gender. -/
structure Employee where
  surname : String
  given_name : String
  patronymic : String
  date_of_birth : Date
  gender : String
deriving DecidableEq

/-- Python tuple comparison `(a1, a2) < (b1, b2)`: lexicographic. -/
def pairLt (a b : Nat × Nat) : Bool :=
  a.1 < b.1 || (a.1 == b.1 && a.2 < b.2)

/-- Model of `Employee.age(self, today=None)`.  `sysToday` stands for
`datetime.date.today()`, used when the optional argument is `None`.
Returns `today.year - born.year`, minus 1 when
`(today.month, today.day) < (born.month, born.day)` (Python tuple order). -/
def Employee.age (e : Employee) (sysToday : Date) (todayOpt : Option Date) : Int :=
  let today := match todayOpt with
    | none => sysToday
    | some t => t
  let born := e.date_of_birth
  let years : Int := (today.year : Int) - (born.year : Int)
  if pairLt (today.month, today.day) (born.month, born.day) then years - 1 else years

/-- Identity key of a row: the columns of the table's UNIQUE constraint
`UNIQUE (surname, given_name, patronymic, date_of_birth)`.  Gender is not
part of the key. -/
def Employee.toKey (e : Employee) : String × String × String × Date :=
  (e.surname, e.given_name, e.patronymic, e.date_of_birth)

/-- Does the store already contain a row with the same identity key? -/
def keyPresent (store : List Employee) (e : Employee) : Bool :=
  store.any (fun r => r.toKey == e.toKey)

/-- Effect of inserting one row with `ON CONFLICT (surname, given_name,
patronymic, date_of_birth) DO NOTHING`: a row whose identity key is already
present is silently skipped, otherwise it is appended. -/
def insertRow (store : List Employee) (e : Employee) : List Employee :=
  if keyPresent store e then store else store ++ [e]

/-- Effect of one multi-row `INSERT ... VALUES %s ... ON CONFLICT DO NOTHING`
(`execute_values` on one chunk): rows are processed left to right, and a later
row of the statement conflicting with an earlier one is skipped as well. -/
def insertChunk (store : List Employee) (c : List Employee) : List Employee :=
  c.foldl insertRow store

/-- Chunking performed by `for i in range(0, len(tuples), batch_size)` with the
slice `tuples[i:i + batch_size]` in `Employee.bulk_insert`.  The fuel argument
only drives structural recursion (so that the function computes by kernel
reduction); it is initialised to the list length and never runs out when
`0 < B`. -/
def chunksAux (B : Nat) : Nat → List α → List (List α)
  | _, [] => []
  | 0, _ :: _ => []
  | fuel + 1, l => l.take B :: chunksAux B fuel (l.drop B)

/-- Partition a list into consecutive chunks of size at most `B` (the slices
taken by `Employee.bulk_insert`'s loop).  For `B = 0` Python's `range` raises
`ValueError`; here `chunks 0` is unconstrained and every theorem about
chunking assumes `0 < B`. -/
def chunks (B : Nat) (l : List α) : List (List α) :=
  chunksAux B l.length l

/-- State of the database connection: the committed rows and the uncommitted
working view of the current transaction. -/
structure PGState where
  committed : List Employee
  tx : List Employee
deriving DecidableEq

/-- Execution of one chunk's multi-row insert inside the open transaction:
only the working view changes. -/
def execChunk (st : PGState) (c : List Employee) : PGState :=
  { st with tx := insertChunk st.tx c }

/-- Model of `conn.commit()`: the working view becomes durable. -/
def pgCommit (st : PGState) : PGState :=
  { st with committed := st.tx }

/-- Model of `Employee.save`: a single-row insert with conflict skipping,
followed immediately by `conn.commit()`.  Returns the committed store. -/
def Employee.save (e : Employee) (store : List Employee) : List Employee :=
  insertRow store e

/-- Model of `Employee.bulk_insert(conn, employees, batch_size)`: the input is
cut into chunks of at most `batch_size`, each chunk is executed as one
multi-row insert, and `conn.commit()` runs once after the loop (the commit in
the source is outside the `for`).  Returns the committed store. -/
def Employee.bulk_insert (store : List Employee) (employees : List Employee)
    (batch_size : Nat) : List Employee :=
  (pgCommit ((chunks batch_size employees).foldl execChunk ⟨store, store⟩)).committed

/-- State reached when `Employee.bulk_insert` is interrupted after `k` complete
chunks, before the final `conn.commit()` runs. -/
def bulkInsertCrash (store : List Employee) (employees : List Employee)
    (batch_size : Nat) (k : Nat) : PGState :=
  ((chunks batch_size employees).take k).foldl execChunk ⟨store, store⟩

/-- Row as it reaches the database in `bulk_insert`: any field may be NULL
(`None` flowing through `to_tuple`), and the schema declares every column
NOT NULL. -/
structure RawEmployee where
  surname : Option String
  given_name : Option String
  patronymic : Option String
  date_of_birth : Option Date
  gender : Option String
deriving DecidableEq

/-- NOT NULL check of the `employees` schema on one incoming row. -/
def rawOk (r : RawEmployee) : Bool :=
  r.surname.isSome && r.given_name.isSome && r.patronymic.isSome
    && r.date_of_birth.isSome && r.gender.isSome

/-- View of a fully populated raw row as an `Employee`. -/
def rawToEmployee (r : RawEmployee) : Employee :=
  ⟨r.surname.getD "", r.given_name.getD "", r.patronymic.getD "",
    r.date_of_birth.getD ⟨1, 1, 1⟩, r.gender.getD ""⟩

/-- Execution of one chunk of possibly-NULL rows: a NULL in any NOT NULL
column makes the statement raise (the whole chunk errors); otherwise the rows
are inserted with conflict skipping. -/
def execRawChunk (store : List Employee) (c : List RawEmployee) :
    Except Unit (List Employee) :=
  if c.all rawOk then .ok (insertChunk store (c.map rawToEmployee)) else .error ()

/-- Model of `Employee.bulk_insert` on rows that may carry NULL fields: all
chunks run in one transaction with a single commit at the end, so an error in
any chunk aborts the call and nothing from it is committed (`Except.error`
means the committed store is unchanged). -/
def bulkInsertRaw (store : List Employee) (employees : List RawEmployee)
    (batch_size : Nat) : Except Unit (List Employee) :=
  (chunks batch_size employees).foldlM execRawChunk store

/-- Committed store after a `bulkInsertRaw` call: on error the transaction is
rolled back and the store is as before. -/
def committedAfter (store : List Employee) (res : Except Unit (List Employee)) :
    List Employee :=
  match res with
  | .ok s => s
  | .error _ => store

/-- Python `str.strip()`: drop leading and trailing whitespace. -/
def pyStrip (s : String) : String :=
  ⟨((s.data.dropWhile Char.isWhitespace).reverse.dropWhile Char.isWhitespace).reverse⟩

/-- Accumulator loop of Python `str.split()` with no separator: maximal runs
of non-whitespace characters; empty tokens never appear. -/
def wordsAux : List Char → List Char → List (List Char)
  | [], acc => if acc = [] then [] else [acc.reverse]
  | c :: cs, acc =>
    if c.isWhitespace then
      (if acc = [] then wordsAux cs [] else acc.reverse :: wordsAux cs [])
    else wordsAux cs (c :: acc)

/-- Python `str.split()` with no separator. -/
def pySplit (s : String) : List String :=
  (wordsAux s.data []).map String.mk

/-- Model of `parse_fullname`: split the stripped full name on whitespace;
3 tokens map to (surname, given, patronymic), 2 tokens leave the patronymic
empty, more than 3 tokens join the remainder with single spaces, fewer than 2
raise `ValueError`. -/
def parse_fullname (fullname : String) : Except String (String × String × String) :=
  let parts := pySplit (pyStrip fullname)
  if parts.length = 3 then
    .ok (parts.getD 0 "", parts.getD 1 "", parts.getD 2 "")
  else if parts.length = 2 then
    .ok (parts.getD 0 "", parts.getD 1 "", "")
  else if parts.length > 3 then
    .ok (parts.getD 0 "", parts.getD 1 "", String.intercalate " " (parts.drop 2))
  else
    .error "Fullname must contain at least surname and given name."

/-- Splitting on a separator character, keeping empty pieces (Python
`str.split('-')`). -/
def splitOnAux (p : Char → Bool) : List Char → List Char → List (List Char)
  | [], acc => [acc.reverse]
  | c :: cs, acc =>
    if p c then acc.reverse :: splitOnAux p cs [] else splitOnAux p cs (c :: acc)

/-- Value of a list of decimal digit characters. -/
def digitsVal (l : List Char) : Nat :=
  l.foldl (fun acc c => 10 * acc + (c.toNat - 48)) 0

/-- Parse a non-empty all-digit character run as a natural number. -/
def parseNat? (l : List Char) : Option Nat :=
  if l ≠ [] ∧ l.all Char.isDigit then some (digitsVal l) else none

/-- Gregorian leap-year rule, as validated by `datetime`. -/
def isLeap (y : Nat) : Bool :=
  (y % 4 == 0 && y % 100 != 0) || y % 400 == 0

/-- Number of days of a month, as validated by `datetime`. -/
def daysInMonth (y m : Nat) : Nat :=
  if m = 2 then (if isLeap y then 29 else 28)
  else if m = 4 ∨ m = 6 ∨ m = 9 ∨ m = 11 then 30
  else 31

/-- Model of `parse_date`, i.e. of
`datetime.datetime.strptime(datestr, "%Y-%m-%d").date()`: three dash-separated
decimal fields, where `%Y` takes exactly 4 digits (CPython's `_strptime`
matches the year with a fixed 4-digit pattern, so `"999-07-12"` raises) and
month and day take 1 or 2 digits; year at least 1 (`datetime.MINYEAR`),
month 1..12, day valid for the month; anything else raises `ValueError`. -/
def parse_date (datestr : String) : Except String Date :=
  match splitOnAux (fun c => c == '-') datestr.data [] with
  | [ys, ms, ds] =>
    match parseNat? ys, parseNat? ms, parseNat? ds with
    | some y, some m, some d =>
      if 1 ≤ y ∧ ys.length = 4 ∧ ms.length ≤ 2 ∧ ds.length ≤ 2
          ∧ 1 ≤ m ∧ m ≤ 12 ∧ 1 ≤ d ∧ d ≤ daysInMonth y m then
        .ok ⟨y, m, d⟩
      else .error "time data does not match format"
    | _, _, _ => .error "time data does not match format"
  | _ => .error "time data does not match format"

/-- Model of `mode_insert_single(fullname, dob_str, gender)`: parse the full
name and the date (failures abort before anything is written), build the
`Employee` with the gender argument taken verbatim, and `save` it. -/
def mode_insert_single (store : List Employee) (fullname dob_str gender : String) :
    Except String (List Employee) := do
  let (surname, given, patronymic) ← parse_fullname fullname
  let dob ← parse_date dob_str
  .ok (Employee.save ⟨surname, given, patronymic, dob, gender⟩ store)

/-- Batch size constant `BATCH_SIZE = 10000` of `main.py`. -/
def BATCH_SIZE : Nat := 10000

/-- Catalog `FIRST_NAMES` of `main.py`. -/
def FIRST_NAMES : List String :=
  ["Ivan", "Petr", "Alex", "John", "Michael", "David", "Robert", "William",
   "James", "Thomas", "Andrey", "Nikolay", "Sergey", "Vladimir", "Roman", "Igor"]

/-- Catalog `PATRONYMICS` of `main.py`. -/
def PATRONYMICS : List String :=
  ["Ivanovich", "Petrovich", "Sergeevich", "Alexandrovich", "Mikhailovich",
   "Dmitrievich", "Vladimirovich", "Nikolaevich", "Romanovich", "Igorevich"]

/-- Letters `A`..`Z` (`[chr(i) for i in range(ord('A'), ord('Z') + 1)]`). -/
def LETTERS : List Char :=
  (List.range 26).map (fun i => Char.ofNat ('A'.toNat + i))

/-- Surname pool for a letter, as built by `prepare_surnames`:
`[f"{L}surname{n}" for n in range(1, 201)]`. -/
def SURNAMES_BY_LETTER (L : Char) : List String :=
  (List.range 200).map (fun n => String.singleton L ++ "surname" ++ Nat.repr (n + 1))

/-- Model of `random.choice(arr)`: an oracle draw `d` reduced modulo the
length selects the element (the list is never empty at call sites). -/
def pyChoice (arr : List α) (dflt : α) (d : Nat) : α :=
  arr.getD (d % arr.length) dflt

/-- Model of `random.randint(a, b)` (both ends inclusive): an oracle draw `d`
reduced modulo the size of the range. -/
def pyRandint (a b d : Nat) : Nat :=
  a + d % (b - a + 1)

/-- Model of `gen_random_employee(letter, gender)`.  `dr` is the stream of
oracle draws consumed by this call, `today` stands for
`datetime.date.today()`.  Optional letter and gender default to uniform
draws, mirroring the `None` branches. -/
def gen_random_employee (dr : Nat → Nat) (today : Date)
    (letterOpt : Option Char) (genderOpt : Option String) : Employee :=
  let letter := match letterOpt with
    | none => pyChoice LETTERS 'A' (dr 0)
    | some L => L
  let surname := pyChoice (SURNAMES_BY_LETTER letter) "" (dr 1)
  let given := pyChoice FIRST_NAMES "" (dr 2)
  let patronymic := pyChoice PATRONYMICS "" (dr 3)
  let age_years := pyRandint 18 70 (dr 4)
  let start_year := today.year - age_years
  let month := pyRandint 1 12 (dr 5)
  let day := pyRandint 1 28 (dr 6)
  let gender := match genderOpt with
    | none => pyChoice ["Male", "Female"] "Male" (dr 7)
    | some g => g
  ⟨surname, given, patronymic, ⟨start_year, month, day⟩, gender⟩

/-- The i-th general record generated by the loop of `mode_bulk_generate`:
letter `letters_cycle[i % len(letters_cycle)]`, gender alternating by the
parity of `i`, remaining attributes drawn through `gen_random_employee`. -/
def mode4GeneralRecord (o : Nat → Nat) (today : Date) (i : Nat) : Employee :=
  gen_random_employee (fun k => o (8 * i + k)) today
    (some (LETTERS.getD (i % LETTERS.length) 'A'))
    (some (if i % 2 = 0 then "Male" else "Female"))

/-- The `total` general records of `mode_bulk_generate`, in generation order. -/
def generalRecords (o : Nat → Nat) (today : Date) (total : Nat) : List Employee :=
  (List.range total).map (mode4GeneralRecord o today)

/-- The i-th of the 100 special records appended by `mode_bulk_generate`:
surname `f"F_special_{i+1}"`, random given name and patronymic, birth year
`randint(today.year - 60, today.year - 18)`, month `randint(1, 12)`, day
`randint(1, 28)`, gender fixed to `"Male"`.  `base` is the oracle offset at
which this phase starts drawing. -/
def specialRecord (o : Nat → Nat) (today : Date) (base i : Nat) : Employee :=
  let surname := "F_special_" ++ Nat.repr (i + 1)
  let given := pyChoice FIRST_NAMES "" (o (base + 5 * i))
  let patronymic := pyChoice PATRONYMICS "" (o (base + 5 * i + 1))
  let year := pyRandint (today.year - 60) (today.year - 18) (o (base + 5 * i + 2))
  let month := pyRandint 1 12 (o (base + 5 * i + 3))
  let day := pyRandint 1 28 (o (base + 5 * i + 4))
  ⟨surname, given, patronymic, ⟨year, month, day⟩, "Male"⟩

/-- The 100 special records appended by `mode_bulk_generate`. -/
def specialRecords (o : Nat → Nat) (today : Date) (base : Nat) : List Employee :=
  (List.range 100).map (specialRecord o today base)

/-- Model of `mode_bulk_generate(total)` starting from an empty table: the
general records are flushed through `Employee.bulk_insert` whenever the
in-memory batch reaches `BATCH_SIZE` (plus a final flush), then the 100
special records are inserted with one further `bulk_insert` call.  Returns
the committed store. -/
def mode_bulk_generate (o : Nat → Nat) (today : Date) (total : Nat) : List Employee :=
  let s1 := (chunks BATCH_SIZE (generalRecords o today total)).foldl
    (fun st b => Employee.bulk_insert st b BATCH_SIZE) []
  Employee.bulk_insert s1 (specialRecords o today (8 * total)) BATCH_SIZE

/-- SQL predicate `surname LIKE 'F%'`: the surname starts with `F`. -/
def likeF (s : String) : Bool :=
  s.data.head? == some 'F'

/-- Row predicate of the mode-5 query: `gender = 'Male' AND surname LIKE 'F%'`. -/
def mode5Predicate (e : Employee) : Bool :=
  e.gender == "Male" && likeF e.surname

/-- Comparison used by `ORDER BY surname`. -/
def surnameLe (a b : Employee) : Bool :=
  decide (a.surname ≤ b.surname)

/-- Model of the query of `mode_select_male_F_measure`:
`SELECT ... WHERE gender = 'Male' AND surname LIKE 'F%' ORDER BY surname`.
Returns the full ordered result set (the mode prints its length, the elapsed
time, and the first 20 rows). -/
def mode_select_male_F_measure (store : List Employee) : List Employee :=
  (store.filter mode5Predicate).mergeSort surnameLe

/-- Boolean check that a result list is ordered by surname ascending. -/
def sortedBySurname : List Employee → Bool
  | [] => true
  | [_] => true
  | a :: b :: t => surnameLe a b && sortedBySurname (b :: t)

/-- Concrete row used in counterexamples and witnesses. -/
def bRow1 : Employee := ⟨"Aaa", "Bbb", "Ccc", ⟨1990, 1, 1⟩, "Male"⟩

/-- Second concrete row used in counterexamples and witnesses. -/
def bRow2 : Employee := ⟨"Ddd", "Eee", "Fff", ⟨1991, 2, 2⟩, "Female"⟩

/-- Oracle that drives the first special record of `mode_bulk_generate` to a
latest-possible birthday: year draw 42, month draw 11, day draw 27. -/
def c5CexOracle : Nat → Nat :=
  fun k => if k = 2 then 42 else if k = 3 then 11 else if k = 4 then 27 else 0

/-- Generation date used in the C5 counterexample. -/
def c5CexDate : Date := ⟨2024, 7, 12⟩

/-- Store holding a row whose identity key collides with `"Ivanov Petr"`,
`2009-07-12`, but whose gender differs. -/
def c10Store : List Employee := [⟨"Ivanov", "Petr", "", ⟨2009, 7, 12⟩, "Female"⟩]

/-- Raw row with a NULL surname (a malformed record). -/
def rawBad : RawEmployee :=
  ⟨none, some "Ivan", some "Ivanovich", some ⟨1990, 1, 1⟩, some "Male"⟩

/-- Uniqueness invariant the table's UNIQUE constraint maintains: no two
stored rows share an identity key. -/
def storeOk (s : List Employee) : Prop :=
  (s.map Employee.toKey).Nodup

instance : DecidablePred storeOk := fun s =>
  inferInstanceAs (Decidable ((s.map Employee.toKey).Nodup))

/-- Number of stored rows carrying the identity key `k`. -/
def countKey (s : List Employee) (k : String × String × String × Date) : Nat :=
  (s.map Employee.toKey).countP (fun x => x == k)

/-- Second character of a string: distinguishes every general-pool surname
(`'s'`, as in `"Fsurname17"`) from every special surname (`'_'`, as in
`"F_special_17"`). -/
def secondChar (s : String) : Option Char :=
  s.data.tail.head?

theorem keyPresent_append (s : List Employee) (a e : Employee) :
    keyPresent (s ++ [a]) e = (keyPresent s e || (a.toKey == e.toKey)) := by
  simp [keyPresent, List.any_append]

theorem keyPresent_insertRow_self (s : List Employee) (e : Employee) :
    keyPresent (insertRow s e) e = true := by
  by_cases h : keyPresent s e
  · simp [insertRow, h]
  · simp only [insertRow, h, if_false, Bool.false_eq_true]
    simp [keyPresent_append, h]

theorem insertRow_of_present (s : List Employee) (e : Employee)
    (h : keyPresent s e = true) : insertRow s e = s := by
  simp [insertRow, h]

theorem insertRow_of_absent (s : List Employee) (e : Employee)
    (h : keyPresent s e = false) : insertRow s e = s ++ [e] := by
  simp [insertRow, h]

theorem keyPresent_insertRow_mono (s : List Employee) (x e : Employee)
    (h : keyPresent s e = true) : keyPresent (insertRow s x) e = true := by
  by_cases hx : keyPresent s x
  · simpa [insertRow, hx]
  · simp only [insertRow, hx, if_false, Bool.false_eq_true]
    simp [keyPresent_append, h]

theorem keyPresent_foldl_mono (l : List Employee) (s : List Employee) (e : Employee)
    (h : keyPresent s e = true) : keyPresent (l.foldl insertRow s) e = true := by
  induction l generalizing s with
  | nil => simpa using h
  | cons a t ih => exact ih _ (keyPresent_insertRow_mono s a e h)

theorem keyPresent_foldl_of_mem (l : List Employee) (s : List Employee) (e : Employee)
    (h : e ∈ l) : keyPresent (l.foldl insertRow s) e = true := by
  induction l generalizing s with
  | nil => cases h
  | cons a t ih =>
    rcases List.mem_cons.mp h with rfl | h'
    · exact keyPresent_foldl_mono t _ e (keyPresent_insertRow_self s e)
    · exact ih _ h'

theorem foldl_insertRow_all_present (l : List Employee) (s : List Employee)
    (h : ∀ e ∈ l, keyPresent s e = true) : l.foldl insertRow s = s := by
  induction l with
  | nil => rfl
  | cons a t ih =>
    rw [List.foldl_cons, insertRow_of_present s a (h a (by simp))]
    exact ih fun e he => h e (by simp [he])

theorem chunksAux_flatten (B : Nat) (hB : 0 < B) :
    ∀ (fuel : Nat) (l : List α), l.length ≤ fuel → (chunksAux B fuel l).flatten = l := by
  intro fuel
  induction fuel with
  | zero =>
    intro l hl
    cases l with
    | nil => rfl
    | cons x xs => simp at hl
  | succ f ih =>
    intro l hl
    cases l with
    | nil => rfl
    | cons x xs =>
      show (((x :: xs).take B :: chunksAux B f ((x :: xs).drop B)).flatten) = x :: xs
      rw [List.flatten_cons,
        ih ((x :: xs).drop B)
          (by simp only [List.length_drop, List.length_cons] at hl ⊢; omega),
        List.take_append_drop]

theorem chunks_flatten (B : Nat) (hB : 0 < B) (l : List α) :
    (chunks B l).flatten = l :=
  chunksAux_flatten B hB l.length l le_rfl

theorem chunksAux_mem_length_le (B : Nat) :
    ∀ (fuel : Nat) (l : List α) (c : List α), c ∈ chunksAux B fuel l → c.length ≤ B := by
  intro fuel
  induction fuel with
  | zero =>
    intro l c hc
    cases l <;> simp [chunksAux] at hc
  | succ f ih =>
    intro l c hc
    cases l with
    | nil => simp [chunksAux] at hc
    | cons x xs =>
      rcases List.mem_cons.mp hc with rfl | h'
      · simpa using Nat.min_le_left B (x :: xs).length
      · exact ih _ _ h'

theorem chunks_mem_length_le (B : Nat) (l : List α) (c : List α)
    (h : c ∈ chunks B l) : c.length ≤ B :=
  chunksAux_mem_length_le B l.length l c h

theorem foldl_execChunk_committed (L : List (List Employee)) (st : PGState) :
    (L.foldl execChunk st).committed = st.committed := by
  induction L generalizing st with
  | nil => rfl
  | cons c t ih => simp [List.foldl_cons, execChunk, ih]

theorem foldl_execChunk_tx (L : List (List Employee)) (st : PGState) :
    (L.foldl execChunk st).tx = L.foldl insertChunk st.tx := by
  induction L generalizing st with
  | nil => rfl
  | cons c t ih => simp [List.foldl_cons, execChunk, ih]

theorem foldl_insertChunk_eq (L : List (List Employee)) (s : List Employee) :
    L.foldl insertChunk s = L.flatten.foldl insertRow s := by
  induction L generalizing s with
  | nil => rfl
  | cons c t ih => simp [List.flatten_cons, List.foldl_append, insertChunk, ih]

theorem bulk_insert_eq_foldl (store l : List Employee) (B : Nat) (hB : 0 < B) :
    Employee.bulk_insert store l B = l.foldl insertRow store := by
  unfold Employee.bulk_insert pgCommit
  simp only
  rw [foldl_execChunk_tx, foldl_insertChunk_eq, chunks_flatten B hB]

theorem bulkInsertCrash_committed (store l : List Employee) (B k : Nat) :
    (bulkInsertCrash store l B k).committed = store :=
  foldl_execChunk_committed _ _

theorem keyPresent_iff_mem (s : List Employee) (e : Employee) :
    keyPresent s e = true ↔ e.toKey ∈ s.map Employee.toKey := by
  simp only [keyPresent, List.any_eq_true, beq_iff_eq, List.mem_map]

theorem keyPresent_eq_false_iff (s : List Employee) (e : Employee) :
    keyPresent s e = false ↔ ∀ r ∈ s, r.toKey ≠ e.toKey := by
  rw [← Bool.not_eq_true, keyPresent_iff_mem]
  simp [List.mem_map]

theorem storeOk_insertRow (s : List Employee) (e : Employee) (h : storeOk s) :
    storeOk (insertRow s e) := by
  by_cases hp : keyPresent s e
  · simpa [insertRow_of_present s e hp]
  · rw [insertRow_of_absent s e (by simpa using hp)]
    unfold storeOk at h ⊢
    rw [List.map_append]
    simp only [List.map_cons, List.map_nil, List.nodup_append]
    refine ⟨h, by simp, ?_⟩
    intro k hk
    simp only [List.mem_singleton]
    intro hke
    rw [keyPresent_iff_mem] at hp
    exact hp (hke ▸ hk)

theorem countP_eq_key_le_one {β : Type} [BEq β] [LawfulBEq β] (l : List β) (hl : l.Nodup)
    (k : β) : l.countP (fun x => x == k) ≤ 1 := by
  induction l with
  | nil => simp
  | cons a t ih =>
    rw [List.countP_cons]
    rcases List.nodup_cons.mp hl with ⟨ha, ht⟩
    by_cases hak : a = k
    · have hz : t.countP (fun x => x == k) = 0 := by
        rw [List.countP_eq_zero]
        intro x hx
        simp only [beq_iff_eq]
        intro hxk
        exact ha (by rw [hak, ← hxk]; exact hx)
      simp [hz, hak]
    · simpa [hak] using ih ht

theorem countKey_eq_one_of_present (s : List Employee) (e : Employee)
    (hOk : storeOk s) (hp : keyPresent s e = true) :
    countKey s e.toKey = 1 := by
  have h1 : 0 < countKey s e.toKey := by
    rw [countKey, List.countP_pos_iff]
    exact ⟨e.toKey, (keyPresent_iff_mem s e).mp hp, by simp⟩
  have h2 : countKey s e.toKey ≤ 1 := by
    unfold countKey
    exact countP_eq_key_le_one _ hOk _
  omega

theorem mem_foldl_insertRow (l : List Employee) (s : List Employee) (r : Employee)
    (h : r ∈ l.foldl insertRow s) : r ∈ s ∨ r ∈ l := by
  induction l generalizing s with
  | nil => exact Or.inl h
  | cons a t ih =>
    rcases ih (insertRow s a) h with h' | h'
    · by_cases hp : keyPresent s a
      · rw [insertRow_of_present s a hp] at h'
        exact Or.inl h'
      · rw [insertRow_of_absent s a (by simpa using hp)] at h'
        rcases List.mem_append.mp h' with h'' | h''
        · exact Or.inl h''
        · simp at h''
          simp [h'']
    · simp [h']

theorem foldl_insertRow_all_fresh (l : List Employee) :
    ∀ s : List Employee, (∀ e ∈ l, keyPresent s e = false) →
      l.Pairwise (fun a b => a.toKey ≠ b.toKey) →
      l.foldl insertRow s = s ++ l := by
  induction l with
  | nil => simp
  | cons a t ih =>
    intro s hf hp
    have ha : keyPresent s a = false := hf a (by simp)
    rw [List.foldl_cons, insertRow_of_absent s a ha,
      ih (s ++ [a]) ?_ (List.pairwise_cons.mp hp).2]
    · simp
    · intro e he
      rw [keyPresent_append]
      rw [hf e (by simp [he]), Bool.false_or]
      exact beq_eq_false_iff_ne.mpr ((List.pairwise_cons.mp hp).1 e he)

theorem pyChoice_mem {β : Type} (arr : List β) (dflt : β) (d : Nat)
    (h : 0 < arr.length) : pyChoice arr dflt d ∈ arr := by
  have hlt : d % arr.length < arr.length := Nat.mod_lt _ h
  rw [pyChoice, List.getD_eq_getElem?_getD, List.getElem?_eq_getElem hlt]
  simp

theorem pool_shape (L : Char) (s : String) (h : s ∈ SURNAMES_BY_LETTER L) :
    ∃ n : Nat, s = String.singleton L ++ "surname" ++ Nat.repr (n + 1) := by
  simp only [SURNAMES_BY_LETTER, List.mem_map, List.mem_range] at h
  obtain ⟨n, _, rfl⟩ := h
  exact ⟨n, rfl⟩

theorem pool_surname_head (L : Char) (s : String) (h : s ∈ SURNAMES_BY_LETTER L) :
    s.data.head? = some L := by
  obtain ⟨n, rfl⟩ := pool_shape L s h
  rw [String.data_append, String.data_append]
  rfl

theorem pool_surname_second (L : Char) (s : String) (h : s ∈ SURNAMES_BY_LETTER L) :
    secondChar s = some 's' := by
  obtain ⟨n, rfl⟩ := pool_shape L s h
  unfold secondChar
  rw [String.data_append, String.data_append]
  rfl

theorem specialRecord_surname_eq (o : Nat → Nat) (today : Date) (base i : Nat) :
    (specialRecord o today base i).surname = "F_special_" ++ Nat.repr (i + 1) := rfl

theorem specialRecord_surname_head (o : Nat → Nat) (today : Date) (base i : Nat) :
    (specialRecord o today base i).surname.data.head? = some 'F' := by
  rw [specialRecord_surname_eq, String.data_append]
  rfl

theorem specialRecord_surname_second (o : Nat → Nat) (today : Date) (base i : Nat) :
    secondChar (specialRecord o today base i).surname = some '_' := by
  rw [specialRecord_surname_eq]
  unfold secondChar
  rw [String.data_append]
  rfl

theorem specialRecord_gender (o : Nat → Nat) (today : Date) (base i : Nat) :
    (specialRecord o today base i).gender = "Male" := rfl

theorem mode5Predicate_special (o : Nat → Nat) (today : Date) (base i : Nat) :
    mode5Predicate (specialRecord o today base i) = true := by
  simp [mode5Predicate, likeF, specialRecord_gender, specialRecord_surname_head]

theorem specialSurnames_nodup :
    ((List.range 100).map (fun i => "F_special_" ++ Nat.repr (i + 1))).Nodup := by
  decide

theorem specialRecords_map_surname (o : Nat → Nat) (today : Date) (base : Nat) :
    (specialRecords o today base).map (fun e => e.surname)
      = (List.range 100).map (fun i => "F_special_" ++ Nat.repr (i + 1)) := by
  unfold specialRecords
  rw [List.map_map]
  rfl

theorem specialRecords_pairwise_keys (o : Nat → Nat) (today : Date) (base : Nat) :
    (specialRecords o today base).Pairwise (fun a b => a.toKey ≠ b.toKey) := by
  have h := specialSurnames_nodup
  rw [← specialRecords_map_surname o today base] at h
  have h2 : (specialRecords o today base).Pairwise (fun a b => a.surname ≠ b.surname) :=
    List.pairwise_map.mp h
  exact h2.imp fun hne hkeq => hne (congrArg Prod.fst hkeq)

theorem mode4General_surname_mem (o : Nat → Nat) (today : Date) (i : Nat) :
    (mode4GeneralRecord o today i).surname
      ∈ SURNAMES_BY_LETTER (LETTERS.getD (i % LETTERS.length) 'A') := by
  show pyChoice (SURNAMES_BY_LETTER (LETTERS.getD (i % LETTERS.length) 'A')) "" _
    ∈ SURNAMES_BY_LETTER (LETTERS.getD (i % LETTERS.length) 'A')
  apply pyChoice_mem
  simp [SURNAMES_BY_LETTER]

theorem mode4General_surname_second (o : Nat → Nat) (today : Date) (i : Nat) :
    secondChar (mode4GeneralRecord o today i).surname = some 's' :=
  pool_surname_second _ _ (mode4General_surname_mem o today i)

theorem foldl_bulk_insert_chunks (l : List Employee) (s : List Employee) :
    (chunks BATCH_SIZE l).foldl (fun st b => Employee.bulk_insert st b BATCH_SIZE) s
      = l.foldl insertRow s := by
  have hB : 0 < BATCH_SIZE := by decide
  have h1 : ∀ (L : List (List Employee)) (s : List Employee),
      L.foldl (fun st b => Employee.bulk_insert st b BATCH_SIZE) s
        = L.foldl insertChunk s := by
    intro L
    induction L with
    | nil => intro s; rfl
    | cons c t ih =>
      intro s
      rw [List.foldl_cons, List.foldl_cons, bulk_insert_eq_foldl _ _ _ hB, ih]
      rfl
  rw [h1, foldl_insertChunk_eq, chunks_flatten _ hB]

theorem mode_bulk_generate_eq (o : Nat → Nat) (today : Date) (total : Nat) :
    mode_bulk_generate o today total
      = (specialRecords o today (8 * total)).foldl insertRow
          ((generalRecords o today total).foldl insertRow []) := by
  rw [show mode_bulk_generate o today total
      = Employee.bulk_insert
          ((chunks BATCH_SIZE (generalRecords o today total)).foldl
            (fun st b => Employee.bulk_insert st b BATCH_SIZE) [])
          (specialRecords o today (8 * total)) BATCH_SIZE from rfl]
  rw [bulk_insert_eq_foldl _ _ _ (by decide), foldl_bulk_insert_chunks]

theorem mem_generalRecords_of_mem_store (o : Nat → Nat) (today : Date) (total : Nat)
    (r : Employee) (h : r ∈ (generalRecords o today total).foldl insertRow []) :
    r ∈ generalRecords o today total := by
  rcases mem_foldl_insertRow _ _ _ h with h' | h'
  · cases h'
  · exact h'

theorem mode4_final_shape (o : Nat → Nat) (today : Date) (total : Nat) :
    mode_bulk_generate o today total
      = (generalRecords o today total).foldl insertRow []
          ++ specialRecords o today (8 * total) := by
  rw [mode_bulk_generate_eq]
  apply foldl_insertRow_all_fresh
  · intro e he
    rw [keyPresent_eq_false_iff]
    intro r hr hk
    have hr' := mem_generalRecords_of_mem_store o today total r hr
    simp only [generalRecords, List.mem_map, List.mem_range] at hr'
    obtain ⟨i, _, rfl⟩ := hr'
    simp only [specialRecords, List.mem_map, List.mem_range] at he
    obtain ⟨j, _, rfl⟩ := he
    have h1 := mode4General_surname_second o today i
    have h2 := specialRecord_surname_second o today (8 * total) j
    have hs : (mode4GeneralRecord o today i).surname
        = (specialRecord o today (8 * total) j).surname := congrArg Prod.fst hk
    rw [hs, h2] at h1
    cases h1
  · exact specialRecords_pairwise_keys _ _ _

theorem specialRecords_filter (o : Nat → Nat) (today : Date) (base : Nat) :
    (specialRecords o today base).filter mode5Predicate = specialRecords o today base := by
  rw [List.filter_eq_self]
  intro e he
  simp only [specialRecords, List.mem_map, List.mem_range] at he
  obtain ⟨j, _, rfl⟩ := he
  exact mode5Predicate_special o today base j

theorem mode4_match_count (o : Nat → Nat) (today : Date) (total : Nat) :
    100 ≤ ((mode_bulk_generate o today total).filter mode5Predicate).length := by
  rw [mode4_final_shape, List.filter_append, List.length_append,
    specialRecords_filter]
  have h : (specialRecords o today (8 * total)).length = 100 := by
    simp [specialRecords]
  omega

theorem surnameLe_trans : ∀ a b c : Employee,
    surnameLe a b = true → surnameLe b c = true → surnameLe a c = true := by
  intro a b c hab hbc
  simp only [surnameLe, decide_eq_true_eq] at hab hbc ⊢
  exact le_trans hab hbc

theorem surnameLe_total : ∀ a b : Employee, (surnameLe a b || surnameLe b a) = true := by
  intro a b
  simp only [surnameLe, Bool.or_eq_true, decide_eq_true_eq]
  exact le_total a.surname b.surname

theorem sortedBySurname_of_pairwise (l : List Employee)
    (h : l.Pairwise (fun a b => surnameLe a b = true)) : sortedBySurname l = true := by
  induction l with
  | nil => rfl
  | cons a t ih =>
    cases t with
    | nil => rfl
    | cons b t' =>
      rw [sortedBySurname]
      rcases List.pairwise_cons.mp h with ⟨h1, h2⟩
      rw [h1 b (by simp), ih h2]
      rfl

/-- C2: for every randomness oracle and generation date, after the mode-4 bulk
load (1,000,000 general records plus the 100 special ones) into an empty
store, the mode-5 query returns only rows with gender Male and surname
starting with F, ordered by surname ascending, and the number of rows it
reports is at least 100. -/
theorem mode5_query_correct_after_bulk_load (o : Nat → Nat) (today : Date) :
    (∀ r ∈ mode_select_male_F_measure (mode_bulk_generate o today 1000000),
        r.gender = "Male" ∧ r.surname.data.head? = some 'F')
    ∧ sortedBySurname
        (mode_select_male_F_measure (mode_bulk_generate o today 1000000)) = true
    ∧ 100 ≤ (mode_select_male_F_measure (mode_bulk_generate o today 1000000)).length := by
  refine ⟨?_, ?_, ?_⟩
  · intro r hr
    unfold mode_select_male_F_measure at hr
    have hr' : r ∈ (mode_bulk_generate o today 1000000).filter mode5Predicate :=
      (List.mergeSort_perm _ _).mem_iff.mp hr
    have hp := List.of_mem_filter hr'
    simp only [mode5Predicate, likeF, Bool.and_eq_true, beq_iff_eq] at hp
    exact hp
  · exact sortedBySurname_of_pairwise _
      (List.sorted_mergeSort surnameLe_trans surnameLe_total _)
  · unfold mode_select_male_F_measure
    rw [(List.mergeSort_perm _ _).length_eq]
    exact mode4_match_count o today 1000000

/-- C9: Employee.bulk_insert on an empty record list succeeds, executes zero
multi-row insert statements (the chunk list is empty), and leaves the
committed store exactly unchanged. -/
theorem bulk_insert_empty_noop (store : List Employee) (B : Nat) (hB : 0 < B) :
    Employee.bulk_insert store [] B = store ∧ chunks B ([] : List Employee) = [] :=
  ⟨rfl, rfl⟩

/-- Witness for C9: the empty store with the default batch size 10000. -/
theorem bulk_insert_empty_noop_witness :
    0 < 10000
    ∧ (Employee.bulk_insert [] [] 10000 = []
      ∧ chunks 10000 ([] : List Employee) = []) :=
  ⟨by decide, bulk_insert_empty_noop [] 10000 (by decide)⟩

/-- C3 (amended): Employee.bulk_insert partitions its input into chunks of at
most the batch size and performs one multi-row insert per chunk, but it
commits once per call, after the loop, not per chunk: interrupted after k
complete chunks the committed store is still exactly the store from before
the call (all chunks of the call are lost), and only a completed call commits
the conflict-skipping insertion of every input row. -/
theorem bulk_insert_chunked_single_commit (store l : List Employee) (B k : Nat)
    (hB : 0 < B) :
    (chunks B l).flatten = l
    ∧ (∀ c ∈ chunks B l, c.length ≤ B)
    ∧ (bulkInsertCrash store l B k).committed = store
    ∧ Employee.bulk_insert store l B = l.foldl insertRow store :=
  ⟨chunks_flatten B hB l, fun c hc => chunks_mem_length_le B l c hc,
    bulkInsertCrash_committed store l B k, bulk_insert_eq_foldl store l B hB⟩

/-- Witness for C3's amended statement: two rows, batch size 1, crash after
one chunk. -/
theorem bulk_insert_chunked_single_commit_witness :
    0 < 1
    ∧ ((chunks 1 [bRow1, bRow2]).flatten = [bRow1, bRow2]
      ∧ (∀ c ∈ chunks 1 [bRow1, bRow2], c.length ≤ 1)
      ∧ (bulkInsertCrash [] [bRow1, bRow2] 1 1).committed = []
      ∧ Employee.bulk_insert [] [bRow1, bRow2] 1
          = [bRow1, bRow2].foldl insertRow []) :=
  ⟨by decide, bulk_insert_chunked_single_commit [] [bRow1, bRow2] 1 1 (by decide)⟩

/-- C3 counterexample: with batch size 1 and input [bRow1, bRow2], the first
chunk [bRow1] is complete after one loop iteration, yet if the call is
interrupted there (before the single final commit) bRow1 is not in the
committed store: the completed chunk is lost, contrary to the claim that
completed chunks are durably stored. -/
theorem bulk_insert_crash_loses_completed_chunk :
    bRow1 ∈ ((chunks 1 [bRow1, bRow2]).take 1).flatten
    ∧ bRow1 ∉ (bulkInsertCrash [] [bRow1, bRow2] 1 1).committed := by decide

/-- C1: insertion is idempotent on the identity key: a save of a record whose
key is present changes nothing; a bulk_insert all of whose records' keys are
present changes nothing; saving the same record twice leaves exactly one row
with its key (and keeps the uniqueness invariant); re-running a bulk load on
the same input yields exactly the same stored rows as running it once. -/
theorem insert_same_key_idempotent (store : List Employee) (e : Employee)
    (l : List Employee) (B : Nat) (hOk : storeOk store) (hB : 0 < B) :
    (keyPresent store e = true → Employee.save e store = store)
    ∧ ((∀ r ∈ l, keyPresent store r = true) → Employee.bulk_insert store l B = store)
    ∧ countKey (Employee.save e (Employee.save e store)) e.toKey = 1
    ∧ storeOk (Employee.save e (Employee.save e store))
    ∧ Employee.bulk_insert (Employee.bulk_insert store l B) l B
        = Employee.bulk_insert store l B := by
  refine ⟨?_, ?_, ?_, ?_, ?_⟩
  · intro h
    exact insertRow_of_present store e h
  · intro h
    rw [bulk_insert_eq_foldl _ _ _ hB]
    exact foldl_insertRow_all_present l store h
  · have hOk2 : storeOk (Employee.save e (Employee.save e store)) :=
      storeOk_insertRow _ e (storeOk_insertRow store e hOk)
    have hp : keyPresent (Employee.save e (Employee.save e store)) e = true :=
      keyPresent_insertRow_mono _ e e (keyPresent_insertRow_self store e)
    exact countKey_eq_one_of_present _ e hOk2 hp
  · exact storeOk_insertRow _ e (storeOk_insertRow store e hOk)
  · rw [bulk_insert_eq_foldl store l B hB, bulk_insert_eq_foldl _ l B hB]
    exact foldl_insertRow_all_present l _
      (fun r hr => keyPresent_foldl_of_mem l store r hr)

/-- Witness for C1: the empty store, one concrete row, batch size 1. -/
theorem insert_same_key_idempotent_witness :
    storeOk ([] : List Employee) ∧ 0 < 1
    ∧ ((keyPresent [] bRow1 = true → Employee.save bRow1 [] = [])
      ∧ ((∀ r ∈ [bRow1], keyPresent [] r = true)
          → Employee.bulk_insert [] [bRow1] 1 = [])
      ∧ countKey (Employee.save bRow1 (Employee.save bRow1 [])) bRow1.toKey = 1
      ∧ storeOk (Employee.save bRow1 (Employee.save bRow1 []))
      ∧ Employee.bulk_insert (Employee.bulk_insert [] [bRow1] 1) [bRow1] 1
          = Employee.bulk_insert [] [bRow1] 1) :=
  ⟨by decide, by decide,
    insert_same_key_idempotent [] bRow1 [bRow1] 1 (by decide) (by decide)⟩

theorem foldlM_execRawChunk_error (L : List (List RawEmployee)) (c : List RawEmployee)
    (hc : c ∈ L) (hbad : c.all rawOk = false) :
    ∀ s : List Employee, L.foldlM execRawChunk s = .error () := by
  induction L with
  | nil => cases hc
  | cons a t ih =>
    intro s
    rw [List.foldlM_cons]
    rcases List.mem_cons.mp hc with rfl | hc'
    · have h : execRawChunk s c = .error () := by
        simp [execRawChunk, hbad]
      rw [h]
      rfl
    · cases h : execRawChunk s a with
      | error u =>
        cases u
        rfl
      | ok s' =>
        exact ih hc' s'

/-- C4: a bulk insert whose input contains a malformed record (NULL surname
or NULL given name) fails as a whole: the call errors and the committed store
is exactly unchanged, so no malformed record is silently dropped while the
rest is inserted. -/
theorem bulk_insert_malformed_fails_whole (store : List Employee)
    (emps : List RawEmployee) (B : Nat) (hB : 0 < B)
    (hbad : ∃ r ∈ emps, r.surname = none ∨ r.given_name = none) :
    bulkInsertRaw store emps B = .error ()
    ∧ committedAfter store (bulkInsertRaw store emps B) = store := by
  obtain ⟨r, hr, hnull⟩ := hbad
  have hr' : r ∈ (chunks B emps).flatten := by
    rw [chunks_flatten B hB]
    exact hr
  obtain ⟨c, hc, hrc⟩ := List.mem_flatten.mp hr'
  have hrbad : rawOk r = false := by
    rcases hnull with h | h <;> simp [rawOk, h]
  have hbadc : c.all rawOk = false := by
    rcases hall : c.all rawOk with _ | _
    · rfl
    · rw [List.all_eq_true] at hall
      rw [hall r hrc] at hrbad
      cases hrbad
  have herr := foldlM_execRawChunk_error (chunks B emps) c hc hbadc store
  refine ⟨herr, ?_⟩
  rw [show bulkInsertRaw store emps B
      = (chunks B emps).foldlM execRawChunk store from rfl, herr]
  rfl

/-- Witness for C4: one raw row with a NULL surname, batch size 1. -/
theorem bulk_insert_malformed_fails_whole_witness :
    0 < 1 ∧ (∃ r ∈ [rawBad], r.surname = none ∨ r.given_name = none)
    ∧ (bulkInsertRaw [] [rawBad] 1 = .error ()
      ∧ committedAfter [] (bulkInsertRaw [] [rawBad] 1) = []) :=
  ⟨by decide, by decide,
    bulk_insert_malformed_fails_whole [] [rawBad] 1 (by decide) (by decide)⟩

theorem age_le_bounds (e : Employee) (t : Date) :
    (t.year : Int) - (e.date_of_birth.year : Int) - 1 ≤ e.age t (some t)
    ∧ e.age t (some t) ≤ (t.year : Int) - (e.date_of_birth.year : Int) := by
  show (t.year : Int) - (e.date_of_birth.year : Int) - 1
      ≤ (if pairLt (t.month, t.day) (e.date_of_birth.month, e.date_of_birth.day)
          then ((t.year : Int) - (e.date_of_birth.year : Int)) - 1
          else (t.year : Int) - (e.date_of_birth.year : Int))
    ∧ (if pairLt (t.month, t.day) (e.date_of_birth.month, e.date_of_birth.day)
        then ((t.year : Int) - (e.date_of_birth.year : Int)) - 1
        else (t.year : Int) - (e.date_of_birth.year : Int))
      ≤ (t.year : Int) - (e.date_of_birth.year : Int)
  cases h : pairLt (t.month, t.day) (e.date_of_birth.month, e.date_of_birth.day) <;>
    simp only [h, Bool.false_eq_true, if_false, if_true] <;> omega

theorem specialRecord_age_bounds (o : Nat → Nat) (today : Date) (base i : Nat)
    (hy : 60 < today.year) :
    17 ≤ (specialRecord o today base i).age today (some today)
    ∧ (specialRecord o today base i).age today (some today) ≤ 60 := by
  have hyear : (specialRecord o today base i).date_of_birth.year
      = today.year - 60 + (o (base + 5 * i + 2)) % 43 := by
    show pyRandint (today.year - 60) (today.year - 18) (o (base + 5 * i + 2))
        = today.year - 60 + (o (base + 5 * i + 2)) % 43
    unfold pyRandint
    congr 2
    omega
  have hage := age_le_bounds (specialRecord o today base i) today
  rw [hyear] at hage
  have hr : (o (base + 5 * i + 2)) % 43 < 43 :=
    Nat.mod_lt _ (by decide)
  omega

/-- C5 (amended): every run of the special-record phase appends exactly 100
records, each with gender Male, surname starting with the benchmark letter F
and drawn from a namespace disjoint from every general letter pool, and an
age relative to the generation date lying in [17, 60] (17, not 18: when the
drawn birthday has not yet occurred in the generation year, the year
difference of at most 60 and at least 18 is decremented by one). -/
theorem special_records_shape (o : Nat → Nat) (today : Date) (base : Nat)
    (hy : 60 < today.year) :
    (specialRecords o today base).length = 100
    ∧ ∀ e ∈ specialRecords o today base,
        e.gender = "Male"
        ∧ e.surname.data.head? = some 'F'
        ∧ (∀ L : Char, e.surname ∉ SURNAMES_BY_LETTER L)
        ∧ 17 ≤ e.age today (some today)
        ∧ e.age today (some today) ≤ 60 := by
  refine ⟨by simp [specialRecords], ?_⟩
  intro e he
  simp only [specialRecords, List.mem_map, List.mem_range] at he
  obtain ⟨i, _, rfl⟩ := he
  refine ⟨specialRecord_gender o today base i,
    specialRecord_surname_head o today base i, ?_,
    (specialRecord_age_bounds o today base i hy).1,
    (specialRecord_age_bounds o today base i hy).2⟩
  intro L hmem
  have h1 := pool_surname_second L _ hmem
  rw [specialRecord_surname_second o today base i] at h1
  cases h1

/-- Witness for C5's amended statement: the all-zero oracle and generation
date 2024-07-12. -/
theorem special_records_shape_witness :
    60 < c5CexDate.year
    ∧ ((specialRecords (fun _ => 0) c5CexDate 0).length = 100
      ∧ ∀ e ∈ specialRecords (fun _ => 0) c5CexDate 0,
          e.gender = "Male"
          ∧ e.surname.data.head? = some 'F'
          ∧ (∀ L : Char, e.surname ∉ SURNAMES_BY_LETTER L)
          ∧ 17 ≤ e.age c5CexDate (some c5CexDate)
          ∧ e.age c5CexDate (some c5CexDate) ≤ 60) :=
  ⟨by decide, special_records_shape (fun _ => 0) c5CexDate 0 (by decide)⟩

/-- C5 counterexample: in the run driven by the concrete oracle c5CexOracle
with generation date 2024-07-12, a special record is born 2006-12-28 and so
has age 17 on the generation date: the claimed bound of ages in [18, 60]
fails. -/
theorem special_record_age_17 :
    ¬ ∀ e ∈ specialRecords c5CexOracle c5CexDate 0,
        18 ≤ e.age c5CexDate (some c5CexDate) := by
  decide

/-- C6: the i-th general record of the bulk generation has a surname starting
with letter i mod 26 of A..Z and gender Male exactly for even i, Female for
odd i; the letters A..Z are pairwise distinct and the first 26 records carry
exactly the 26 letters in order, so N = 26 yields one record per letter. -/
theorem general_records_letter_gender (o : Nat → Nat) (today : Date)
    (total i : Nat) (h : i < total) :
    (mode4GeneralRecord o today i).surname.data.head?
        = some (LETTERS.getD (i % 26) 'A')
    ∧ (mode4GeneralRecord o today i).gender
        = (if i % 2 = 0 then "Male" else "Female")
    ∧ LETTERS.Nodup
    ∧ (List.range 26).map
        (fun j => (mode4GeneralRecord o today j).surname.data.head?)
      = LETTERS.map some := by
  have hlen : LETTERS.length = 26 := by simp [LETTERS]
  have hhead : ∀ j : Nat, (mode4GeneralRecord o today j).surname.data.head?
      = some (LETTERS.getD (j % 26) 'A') := by
    intro j
    have h1 := pool_surname_head _ _ (mode4General_surname_mem o today j)
    rw [hlen] at h1
    exact h1
  refine ⟨hhead i, rfl, by decide, ?_⟩
  have h2 : (List.range 26).map
      (fun j => (mode4GeneralRecord o today j).surname.data.head?)
      = (List.range 26).map (fun j => some (LETTERS.getD (j % 26) 'A')) :=
    List.map_congr_left (fun j _ => hhead j)
  rw [h2]
  decide

/-- Witness for C6: the all-zero oracle, total 1, index 0. -/
theorem general_records_letter_gender_witness :
    0 < 1
    ∧ ((mode4GeneralRecord (fun _ => 0) c5CexDate 0).surname.data.head?
          = some (LETTERS.getD (0 % 26) 'A')
      ∧ (mode4GeneralRecord (fun _ => 0) c5CexDate 0).gender
          = (if 0 % 2 = 0 then "Male" else "Female")
      ∧ LETTERS.Nodup
      ∧ (List.range 26).map
          (fun j => (mode4GeneralRecord (fun _ => 0) c5CexDate j).surname.data.head?)
        = LETTERS.map some) :=
  ⟨by decide, general_records_letter_gender (fun _ => 0) c5CexDate 1 0 (by decide)⟩

/-- C7: parse_fullname tokenizes the stripped input on whitespace; 2 tokens
give (surname, given, empty patronymic), 3 tokens map in order, more than 3
put the first two as surname/given and join the rest with single spaces as
patronymic, and fewer than 2 raise the input error, in which case
mode_insert_single fails without writing anything. -/
theorem parse_fullname_spec (s : String) :
    ((pySplit (pyStrip s)).length = 2 →
      parse_fullname s = .ok ((pySplit (pyStrip s)).getD 0 "",
        (pySplit (pyStrip s)).getD 1 "", ""))
    ∧ ((pySplit (pyStrip s)).length = 3 →
      parse_fullname s = .ok ((pySplit (pyStrip s)).getD 0 "",
        (pySplit (pyStrip s)).getD 1 "", (pySplit (pyStrip s)).getD 2 ""))
    ∧ (3 < (pySplit (pyStrip s)).length →
      parse_fullname s = .ok ((pySplit (pyStrip s)).getD 0 "",
        (pySplit (pyStrip s)).getD 1 "",
        String.intercalate " " ((pySplit (pyStrip s)).drop 2)))
    ∧ ((pySplit (pyStrip s)).length < 2 →
      parse_fullname s
          = .error "Fullname must contain at least surname and given name."
      ∧ ∀ (store : List Employee) (dstr g : String),
          mode_insert_single store s dstr g
            = .error "Fullname must contain at least surname and given name.") := by
  refine ⟨?_, ?_, ?_, ?_⟩
  · intro h
    simp only [parse_fullname]
    rw [if_neg (by omega), if_pos h]
  · intro h
    simp only [parse_fullname]
    rw [if_pos h]
  · intro h
    simp only [parse_fullname]
    rw [if_neg (by omega), if_neg (by omega), if_pos h]
  · intro h
    have he : parse_fullname s
        = .error "Fullname must contain at least surname and given name." := by
      simp only [parse_fullname]
      rw [if_neg (by omega), if_neg (by omega), if_neg (by omega)]
    refine ⟨he, ?_⟩
    intro store dstr g
    unfold mode_insert_single
    rw [he]
    rfl

/-- Witness for C7: the spec's three-token example. -/
theorem parse_fullname_spec_witness :
    (pySplit (pyStrip "Ivanov Petr Sergeevich")).length = 3
    ∧ parse_fullname "Ivanov Petr Sergeevich" = .ok ("Ivanov", "Petr", "Sergeevich") := by
  refine ⟨by decide, ?_⟩
  rw [(parse_fullname_spec "Ivanov Petr Sergeevich").2.1 (by decide)]
  rfl

theorem pairLt_iff (a b : Nat × Nat) :
    pairLt a b = true ↔ (a.1 < b.1 ∨ (a.1 = b.1 ∧ a.2 < b.2)) := by
  simp [pairLt]

/-- C8: age equals the reference year minus the birth year, decreased by 1
exactly when (reference month, reference day) lexicographically precedes
(birth month, birth day); with no reference date the current date is used;
a person born 2000-07-12 is 23 on 2024-07-11 and 24 on 2024-07-12. -/
theorem age_reference_formula (e : Employee) (sys t : Date) :
    Employee.age e sys (some t)
      = (t.year : Int) - (e.date_of_birth.year : Int)
          - (if t.month < e.date_of_birth.month
                ∨ (t.month = e.date_of_birth.month ∧ t.day < e.date_of_birth.day)
              then 1 else 0)
    ∧ Employee.age e sys none = Employee.age e sys (some sys)
    ∧ Employee.age ⟨"Ivanov", "Petr", "", ⟨2000, 7, 12⟩, "Male"⟩ c5CexDate
        (some ⟨2024, 7, 11⟩) = 23
    ∧ Employee.age ⟨"Ivanov", "Petr", "", ⟨2000, 7, 12⟩, "Male"⟩ c5CexDate
        (some ⟨2024, 7, 12⟩) = 24 := by
  refine ⟨?_, rfl, by decide, by decide⟩
  show (if pairLt (t.month, t.day) (e.date_of_birth.month, e.date_of_birth.day)
        then ((t.year : Int) - (e.date_of_birth.year : Int)) - 1
        else (t.year : Int) - (e.date_of_birth.year : Int))
      = (t.year : Int) - (e.date_of_birth.year : Int)
        - (if t.month < e.date_of_birth.month
              ∨ (t.month = e.date_of_birth.month ∧ t.day < e.date_of_birth.day)
            then 1 else 0)
  by_cases hc : t.month < e.date_of_birth.month
      ∨ (t.month = e.date_of_birth.month ∧ t.day < e.date_of_birth.day)
  · rw [if_pos ((pairLt_iff _ _).mpr hc), if_pos hc]
  · rw [if_neg (fun hp => hc ((pairLt_iff _ _).mp hp)), if_neg hc]
    omega

/-- C10 (amended): mode_insert_single performs no validation of the gender
argument: for every string g, if the full name and the date parse, the call
succeeds and performs the conflict-skipping insert of the parsed record
carrying g verbatim; when the identity key is absent the row (with gender g)
is appended, while a present key leaves the store exactly unchanged, so in
that case no row carrying g is written. -/
theorem insert_single_no_gender_validation (store : List Employee)
    (fn ds g sn gv pt : String) (d : Date)
    (h1 : parse_fullname fn = .ok (sn, gv, pt))
    (h2 : parse_date ds = .ok d) :
    mode_insert_single store fn ds g = .ok (insertRow store ⟨sn, gv, pt, d, g⟩)
    ∧ (keyPresent store ⟨sn, gv, pt, d, g⟩ = false →
        insertRow store ⟨sn, gv, pt, d, g⟩ = store ++ [⟨sn, gv, pt, d, g⟩])
    ∧ (keyPresent store ⟨sn, gv, pt, d, g⟩ = true →
        mode_insert_single store fn ds g = .ok store) := by
  have hm : mode_insert_single store fn ds g
      = .ok (insertRow store ⟨sn, gv, pt, d, g⟩) := by
    unfold mode_insert_single
    rw [h1, h2]
    rfl
  refine ⟨hm, ?_, ?_⟩
  · intro h
    exact insertRow_of_absent store _ h
  · intro h
    rw [hm, insertRow_of_present store _ h]

/-- Witness for C10's amended statement: gender "Xyzzy" on the empty store. -/
theorem insert_single_no_gender_validation_witness :
    parse_fullname "Ivanov Petr" = .ok ("Ivanov", "Petr", "")
    ∧ parse_date "2009-07-12" = .ok ⟨2009, 7, 12⟩
    ∧ (mode_insert_single [] "Ivanov Petr" "2009-07-12" "Xyzzy"
          = .ok (insertRow [] ⟨"Ivanov", "Petr", "", ⟨2009, 7, 12⟩, "Xyzzy"⟩)
      ∧ (keyPresent [] ⟨"Ivanov", "Petr", "", ⟨2009, 7, 12⟩, "Xyzzy"⟩ = false →
          insertRow [] ⟨"Ivanov", "Petr", "", ⟨2009, 7, 12⟩, "Xyzzy"⟩
            = [] ++ [⟨"Ivanov", "Petr", "", ⟨2009, 7, 12⟩, "Xyzzy"⟩])
      ∧ (keyPresent [] ⟨"Ivanov", "Petr", "", ⟨2009, 7, 12⟩, "Xyzzy"⟩ = true →
          mode_insert_single [] "Ivanov Petr" "2009-07-12" "Xyzzy" = .ok [])) :=
  ⟨rfl, rfl,
    insert_single_no_gender_validation [] "Ivanov Petr" "2009-07-12" "Xyzzy"
      "Ivanov" "Petr" "" ⟨2009, 7, 12⟩ rfl rfl⟩

/-- C10 counterexample: the store already holds (Ivanov, Petr, empty
patronymic, 2009-07-12) with gender Female; inserting the full name
"Ivanov Petr" with date 2009-07-12 and gender "Xyzzy" parses successfully,
yet the store is returned unchanged and no stored row carries the gender
"Xyzzy": nothing carrying g verbatim was persisted. -/
theorem insert_single_duplicate_drops_gender :
    mode_insert_single c10Store "Ivanov Petr" "2009-07-12" "Xyzzy" = .ok c10Store
    ∧ ∀ r ∈ c10Store, r.gender ≠ "Xyzzy" :=
  ⟨rfl, by decide⟩
